import Mathlib

/-!
Verification development for the SpaceX Launch Tracker CLI (`src/main.py`).

The program fetches launch data from a JSON API, builds id-to-name lookup
mappings for rockets and launchpads, sorts launch lists by timestamp, and
renders tables, detail panels and search results.  Network effects are
modelled by passing the fetch result in as an `Option` value: `none` is the
sentinel `fetch_json` returns on any transport failure, timeout or non-2xx
status, and `some xs` is the decoded payload.  Python strings are Lean
`String`s; Python string library routines that Lean does not compute in the
kernel are re-implemented over the underlying character lists with the same
semantics.  Python `list.sort` is a stable comparison sort, so it is embedded
as `List.insertionSort` (stable sorts over a total preorder agree on output).
-/

namespace SpaceX

/-- Embeds the Python defaulting idiom `x or default` applied to an optional
string field: `None` and the empty string are falsy, everything else is
returned unchanged.  Used for expressions such as
`r.get("name") or "Unknown rocket"` and `x.get("date_utc") or ""`. -/
def pyOrStr (x : Option String) (d : String) : String :=
  match x with
  | none => d
  | some s => if s = "" then d else s

/-- Python truthiness of an optional string (the guard `if _id:` in
`load_rocket_map`): true exactly when the value is a present, non-empty
string. -/
def pyTruthyStr (x : Option String) : Bool :=
  match x with
  | none => false
  | some s => s ≠ ""

/-- One Python dict assignment `mapping[k] = v` on a dict represented as an
association list in insertion order: an existing key has its value replaced
in place, a new key is appended at the end. -/
def dictInsert [DecidableEq K] : List (K × V) → K → V → List (K × V)
  | [], k, v => [(k, v)]
  | (k0, v0) :: rest, k, v =>
    if k0 = k then (k0, v) :: rest else (k0, v0) :: dictInsert rest k v

/-- Python `mapping.get(k, d)`: the value stored at `k`, or the default `d`
when `k` is not a key of the dict. -/
def dictGet [DecidableEq K] : List (K × V) → K → V → V
  | [], _, d => d
  | (k0, v0) :: rest, k, d => if k0 = k then v0 else dictGet rest k d

/-- One element of the `/rockets` reference collection, restricted to the
fields `load_rocket_map` reads.  A missing field is `none`. -/
structure RocketEntry where
  id : Option String
  name : Option String
deriving DecidableEq

/-- One element of the `/launchpads` reference collection, restricted to the
fields `load_launchpad_map` reads. -/
structure PadEntry where
  id : Option String
  name : Option String
  locality : Option String
  region : Option String
deriving DecidableEq

/-- One launch record, restricted to the fields the claims are about.  Each
field is `none` when absent from the JSON object. -/
structure Launch where
  name : Option String
  date_utc : Option String
  rocket : Option String
  launchpad : Option String
deriving DecidableEq

/-- `load_rocket_map`: fold over the fetched `/rockets` collection
(`fetched = none` is the fetch-failure sentinel, turned into `[]` by
`fetch_json("/rockets") or []`), extracting `_id = r.get("id")` and
`name = r.get("name") or "Unknown rocket"`, and storing the pair only when
the guard `if _id:` holds. -/
def load_rocket_map (fetched : Option (List RocketEntry)) :
    List (Option String × String) :=
  (fetched.getD []).foldl
    (fun mapping r =>
      if pyTruthyStr r.id then
        dictInsert mapping r.id (pyOrStr r.name "Unknown rocket")
      else mapping)
    []

/-- Embeds `", ".join(parts)` for an already-filtered list of parts. -/
def joinComma : List String → String
  | [] => ""
  | [s] => s
  | s :: rest => s ++ ", " ++ joinComma rest

/-- The display string `load_launchpad_map` builds for one pad entry:
`name = p.get("name") or "Unknown pad"`, locality and region defaulted to
`""`, `loc = ", ".join(part for part in [locality, region] if part)`, and
`f"{name} ({loc})" if loc else name`. -/
def padDisplay (p : PadEntry) : String :=
  let name := pyOrStr p.name "Unknown pad"
  let locality := pyOrStr p.locality ""
  let region := pyOrStr p.region ""
  let loc := joinComma (List.filter (fun part => part ≠ "") [locality, region])
  if loc = "" then name else name ++ " (" ++ loc ++ ")"

/-- `load_launchpad_map`: fold over the fetched `/launchpads` collection,
storing `mapping[_id] = display` for every entry — unlike `load_rocket_map`
there is no `if _id:` guard, so an entry whose id is absent is stored under
the Python `None` key (here `none`). -/
def load_launchpad_map (fetched : Option (List PadEntry)) :
    List (Option String × String) :=
  (fetched.getD []).foldl
    (fun mapping p => dictInsert mapping p.id (padDisplay p))
    []

/-- Lexicographic order on character lists, comparing characters by code
point — exactly how Python compares `str` values. -/
def lexLe : List Char → List Char → Bool
  | [], _ => true
  | _ :: _, [] => false
  | a :: as, b :: bs => if a = b then lexLe as bs else decide (a < b)

/-- Python string comparison `s <= t` (code-point lexicographic). -/
def strLe (s t : String) : Bool := lexLe s.data t.data

/-- The sort key `lambda x: x.get("date_utc") or ""` shared by
`get_upcoming_launches` and `get_past_launches`. -/
def sortKey (x : Launch) : String := pyOrStr x.date_utc ""

/-- The comparison `launches.sort(key=...)` sorts by, ascending. -/
def dateAsc (a b : Launch) : Prop := strLe (sortKey a) (sortKey b) = true

/-- The comparison `launches.sort(key=..., reverse=True)` sorts by,
descending. -/
def dateDesc (a b : Launch) : Prop := strLe (sortKey b) (sortKey a) = true

instance : DecidableRel dateAsc := fun a b => by
  unfold dateAsc; infer_instance

instance : DecidableRel dateDesc := fun a b => by
  unfold dateDesc; infer_instance

theorem lexLe_refl (l : List Char) : lexLe l l = true := by
  induction l with
  | nil => rfl
  | cons a as ih => simp [lexLe, ih]

theorem lexLe_total (a b : List Char) : lexLe a b = true ∨ lexLe b a = true := by
  induction a generalizing b with
  | nil => left; rfl
  | cons x as ih =>
    cases b with
    | nil => right; rfl
    | cons y bs =>
      by_cases hxy : x = y
      · subst hxy
        rcases ih bs with h | h
        · left; simpa [lexLe] using h
        · right; simpa [lexLe] using h
      · rcases Ne.lt_or_lt hxy with h | h
        · left; simp [lexLe, hxy, h]
        · right; simp [lexLe, Ne.symm hxy, h]

theorem lexLe_trans {a b c : List Char} (hab : lexLe a b = true)
    (hbc : lexLe b c = true) : lexLe a c = true := by
  induction a generalizing b c with
  | nil => rfl
  | cons x as ih =>
    cases b with
    | nil => simp [lexLe] at hab
    | cons y bs =>
      cases c with
      | nil => simp [lexLe] at hbc
      | cons z cs =>
        by_cases hxy : x = y <;> by_cases hyz : y = z
        · subst hxy; subst hyz
          simp only [lexLe, if_pos rfl] at hab hbc ⊢
          exact ih hab hbc
        · subst hxy
          simp only [lexLe, if_neg hyz] at hbc ⊢
          exact hbc
        · subst hyz
          simp only [lexLe, if_neg hxy] at hab ⊢
          exact hab
        · simp only [lexLe, if_neg hxy] at hab
          simp only [lexLe, if_neg hyz] at hbc
          have hxz : x < z := lt_trans (of_decide_eq_true hab) (of_decide_eq_true hbc)
          simp [lexLe, ne_of_lt hxz, hxz]

theorem strLe_refl (s : String) : strLe s s = true := lexLe_refl s.data

theorem strLe_total (s t : String) : strLe s t = true ∨ strLe t s = true :=
  lexLe_total s.data t.data

theorem strLe_trans {s t u : String} (h1 : strLe s t = true)
    (h2 : strLe t u = true) : strLe s u = true := lexLe_trans h1 h2

instance : IsTotal Launch dateAsc := ⟨fun _ _ => strLe_total _ _⟩

instance : IsTrans Launch dateAsc := ⟨fun _ _ _ => strLe_trans⟩

instance : IsRefl Launch dateAsc := ⟨fun a => strLe_refl (sortKey a)⟩

instance : IsTotal Launch dateDesc := ⟨fun _ _ => (strLe_total _ _).symm⟩

instance : IsTrans Launch dateDesc := ⟨fun _ _ _ h1 h2 => strLe_trans h2 h1⟩

instance : IsRefl Launch dateDesc := ⟨fun a => strLe_refl (sortKey a)⟩

/-- `get_upcoming_launches`: fetch (`none` on failure, defaulted to `[]`),
then `launches.sort(key=lambda x: x.get("date_utc") or "")` — a stable
ascending sort, embedded as insertion sort. -/
def get_upcoming_launches (fetched : Option (List Launch)) : List Launch :=
  (fetched.getD []).insertionSort dateAsc

/-- `get_past_launches`: fetch, stable-sort descending by the same key
(`reverse=True`), then truncate to the first `limit` records. -/
def get_past_launches (limit : Nat) (fetched : Option (List Launch)) :
    List Launch :=
  ((fetched.getD []).insertionSort dateDesc).take limit

/-- Embeds `iso_str.replace("Z", "+00:00")`.  The pattern is a single
character, so replacing every occurrence is a character-wise expansion. -/
def replaceZ (s : String) : String :=
  String.mk (s.data.foldr
    (fun c acc => (if c = 'Z' then "+00:00".data else [c]) ++ acc) [])

/-- `format_datetime`.  The Python library pipeline
`datetime.fromisoformat` followed by `strftime("%Y-%m-%d %H:%M UTC")` is
abstracted as the parameter `pyParse`: `pyParse u = some out` when parsing
`u` succeeds and formats to `out`, and `none` when `fromisoformat` raises.
The source returns the placeholder on a falsy input (`None` or `""`),
applies the parser to the `Z`-replaced string, and on parse failure returns
the original raw string unchanged. -/
def format_datetime (pyParse : String → Option String)
    (iso_str : Option String) : String :=
  match iso_str with
  | none => "—"
  | some s =>
    if s = "" then "—"
    else
      match pyParse (replaceZ s) with
      | some out => out
      | none => s

/-- The rocket cell of `show_launch_table`:
`rocket_map.get(launch.get("rocket"), "Unknown")`. -/
def tableRocketName (rocket_map : List (Option String × String))
    (launch : Launch) : String :=
  dictGet rocket_map launch.rocket "Unknown"

/-- The launchpad cell of `show_launch_table`:
`pad_map.get(launch.get("launchpad"), "Unknown")`. -/
def tablePadName (pad_map : List (Option String × String))
    (launch : Launch) : String :=
  dictGet pad_map launch.launchpad "Unknown"

/-- The rocket line of `show_launch_details`:
`rocket_map.get(launch.get("rocket"), "Unknown rocket")`. -/
def detailRocketName (rocket_map : List (Option String × String))
    (launch : Launch) : String :=
  dictGet rocket_map launch.rocket "Unknown rocket"

/-- The launchpad line of `show_launch_details`:
`pad_map.get(launch.get("launchpad"), "Unknown launchpad")`. -/
def detailPadName (pad_map : List (Option String × String))
    (launch : Launch) : String :=
  dictGet pad_map launch.launchpad "Unknown launchpad"

/-- Python `str.lower()` (character-wise lowering). -/
def pyLower (s : String) : String := String.mk (s.data.map Char.toLower)

/-- Python `str.strip()`: drop whitespace from both ends. -/
def pyStrip (s : String) : String :=
  String.mk
    (((s.data.dropWhile Char.isWhitespace).reverse.dropWhile
        Char.isWhitespace).reverse)

/-- Whether the second character list starts with the first. -/
def leadsWith : List Char → List Char → Bool
  | [], _ => true
  | _ :: _, [] => false
  | a :: as, b :: bs => a = b && leadsWith as bs

/-- Python substring containment `q in s` on character lists: true when `q`
occurs contiguously in `s` (an empty `q` is contained in everything). -/
def containsSub (q : List Char) : List Char → Bool
  | [] => q.isEmpty
  | c :: rest => leadsWith q (c :: rest) || containsSub q rest

/-- The pure matching core of `search_launches`: strip the raw query; an
empty stripped query makes the function return without searching (modelled
as `none`); otherwise lower the query and keep the launches whose name
(absent name read as `""`) contains it case-insensitively. -/
def search_matches (launches : List Launch) (rawQuery : String) :
    Option (List Launch) :=
  let query := pyStrip rawQuery
  if query = "" then none
  else
    some (launches.filter (fun l =>
      containsSub (pyLower query).data (pyLower (pyOrStr l.name "")).data))

/-- A Python value as it can appear in a JSON field, for the dynamically
typed model: `null`, a string, or an integer. -/
inductive PyVal where
  | null
  | str (s : String)
  | int (n : Int)
deriving DecidableEq

/-- Python truthiness of a `PyVal`. -/
def pyTruthy : PyVal → Bool
  | .null => false
  | .str s => s ≠ ""
  | .int n => n ≠ 0

/-- A launch record in the dynamically typed model: the `date_utc` field may
be absent (`none`), `null`, a string, or — ill-typed — an integer. -/
structure LaunchJ where
  date_utc : Option PyVal
deriving DecidableEq

/-- The sort key `x.get("date_utc") or ""` in the dynamically typed model:
absent and falsy values fall back to the empty string, any truthy value —
including a non-zero integer — is kept as is. -/
def sortKeyJ (x : LaunchJ) : PyVal :=
  match x.date_utc with
  | none => .str ""
  | some v => if pyTruthy v then v else .str ""

/-- Python `<=` between two key values: defined within strings and within
integers, `TypeError` across types (and on `None`, which is unordered). -/
def pyLeVal : PyVal → PyVal → Except String Bool
  | .str s, .str t => .ok (strLe s t)
  | .int m, .int n => .ok (decide (m ≤ n))
  | _, _ => .error "TypeError"

/-- Stable insertion of one record into an already sorted list, with the key
comparison allowed to fail as Python comparisons can; a raised `TypeError`
propagates. -/
def orderedInsertE (a : LaunchJ) : List LaunchJ → Except String (List LaunchJ)
  | [] => .ok [a]
  | b :: l =>
    match pyLeVal (sortKeyJ a) (sortKeyJ b) with
    | .error e => .error e
    | .ok true => .ok (a :: b :: l)
    | .ok false =>
      match orderedInsertE a l with
      | .error e => .error e
      | .ok rest => .ok (b :: rest)

/-- Stable sort with failing comparisons: `launches.sort(key=...)` in the
dynamically typed model, propagating a `TypeError` raised by any key
comparison. -/
def insertionSortE : List LaunchJ → Except String (List LaunchJ)
  | [] => .ok []
  | a :: l =>
    match insertionSortE l with
    | .error e => .error e
    | .ok rest => orderedInsertE a rest

/-- `get_upcoming_launches` over dynamically typed records. -/
def get_upcoming_launchesJ (fetched : Option (List LaunchJ)) :
    Except String (List LaunchJ) :=
  insertionSortE (fetched.getD [])

/-- `get_past_launches` over dynamically typed records: the truncation
happens only after the sort has succeeded. -/
def get_past_launchesJ (limit : Nat) (fetched : Option (List LaunchJ)) :
    Except String (List LaunchJ) :=
  match insertionSortE (fetched.getD []) with
  | .error e => .error e
  | .ok sorted => .ok (sorted.take limit)

/-- A record whose key the `or ""` fallback has normalised to a string. -/
def strKeyed (x : LaunchJ) : Prop := ∃ s, sortKeyJ x = PyVal.str s

/-! ### Helper lemmas -/

theorem string_eq_empty_of_data_eq_nil {s : String} (h : s.data = []) :
    s = "" := by
  cases s with
  | mk l => cases h; rfl

theorem data_ne_nil_of_ne_empty {s : String} (h : s ≠ "") : s.data ≠ [] :=
  fun hd => h (string_eq_empty_of_data_eq_nil hd)

theorem append_ne_empty_left {s : String} (t : String) (h : s ≠ "") :
    s ++ t ≠ "" := by
  intro hE
  have hd := congrArg String.data hE
  rw [String.data_append] at hd
  exact data_ne_nil_of_ne_empty h (List.append_eq_nil.mp hd).1

theorem strLe_empty_right {s : String} (h : strLe s "" = true) : s = "" := by
  cases s with
  | mk l =>
    cases l with
    | nil => rfl
    | cons c cs => simp [strLe, lexLe] at h

theorem mem_dictInsert_key [DecidableEq K] {m : List (K × V)} {k : K} {v : V}
    {kv : K × V} (h : kv ∈ dictInsert m k v) :
    kv.1 = k ∨ ∃ v0, (kv.1, v0) ∈ m := by
  induction m with
  | nil =>
    rw [dictInsert, List.mem_singleton] at h
    left; rw [h]
  | cons hd rest ih =>
    obtain ⟨k0, v0⟩ := hd
    simp only [dictInsert] at h
    by_cases hk : k0 = k
    · rw [if_pos hk] at h
      rcases List.mem_cons.mp h with h1 | h1
      · left; rw [h1]; exact hk
      · right
        refine ⟨kv.2, List.mem_cons_of_mem _ ?_⟩
        rw [Prod.mk.eta]; exact h1
    · rw [if_neg hk] at h
      rcases List.mem_cons.mp h with h1 | h1
      · right; exact ⟨v0, by rw [h1]; exact List.mem_cons_self _ _⟩
      · rcases ih h1 with h2 | ⟨v1, hv1⟩
        · left; exact h2
        · right; exact ⟨v1, List.mem_cons_of_mem _ hv1⟩

theorem hasKey_dictInsert_self [DecidableEq K] (m : List (K × V)) (k : K)
    (v : V) : ∃ w, (k, w) ∈ dictInsert m k v := by
  induction m with
  | nil => exact ⟨v, List.mem_singleton.mpr rfl⟩
  | cons hd rest ih =>
    obtain ⟨k0, v0⟩ := hd
    simp only [dictInsert]
    by_cases hk : k0 = k
    · rw [if_pos hk]
      exact ⟨v, by rw [← hk]; exact List.mem_cons_self _ _⟩
    · rw [if_neg hk]
      obtain ⟨w, hw⟩ := ih
      exact ⟨w, List.mem_cons_of_mem _ hw⟩

theorem hasKey_dictInsert_mono [DecidableEq K] {m : List (K × V)} {k0 : K}
    (k : K) (v : V) (h : ∃ w, (k0, w) ∈ m) :
    ∃ w, (k0, w) ∈ dictInsert m k v := by
  induction m with
  | nil => simp at h
  | cons hd rest ih =>
    obtain ⟨k1, v1⟩ := hd
    obtain ⟨w, hw⟩ := h
    simp only [dictInsert]
    by_cases hk : k1 = k
    · rw [if_pos hk]
      rcases List.mem_cons.mp hw with h1 | h1
      · injection h1 with hA hB
        exact ⟨v, by rw [hA]; exact List.mem_cons_self _ _⟩
      · exact ⟨w, List.mem_cons_of_mem _ h1⟩
    · rw [if_neg hk]
      rcases List.mem_cons.mp hw with h1 | h1
      · exact ⟨w, by rw [h1]; exact List.mem_cons_self _ _⟩
      · obtain ⟨w2, hw2⟩ := ih ⟨w, h1⟩
        exact ⟨w2, List.mem_cons_of_mem _ hw2⟩

theorem dictGet_eq_default_or_mem [DecidableEq K] (m : List (K × V)) (k : K)
    (d : V) : dictGet m k d = d ∨ ∃ v, (k, v) ∈ m ∧ dictGet m k d = v := by
  induction m with
  | nil => left; rfl
  | cons hd rest ih =>
    obtain ⟨k0, v0⟩ := hd
    by_cases h : k0 = k
    · subst h
      right
      exact ⟨v0, List.mem_cons_self _ _, by simp [dictGet]⟩
    · rcases ih with h1 | ⟨v, hv, he⟩
      · left; simp [dictGet, h, h1]
      · right
        exact ⟨v, List.mem_cons_of_mem _ hv, by simp [dictGet, h, he]⟩

theorem load_rocket_map_fold_keys (l : List RocketEntry)
    (m : List (Option String × String))
    (hm : ∀ kv ∈ m, ∃ s, kv.1 = some s ∧ s ≠ "") :
    ∀ kv ∈ l.foldl
        (fun mapping r =>
          if pyTruthyStr r.id then
            dictInsert mapping r.id (pyOrStr r.name "Unknown rocket")
          else mapping)
        m,
      ∃ s, kv.1 = some s ∧ s ≠ "" := by
  induction l generalizing m with
  | nil => exact hm
  | cons r rest ih =>
    rw [List.foldl_cons]
    apply ih
    intro kv hkv
    by_cases hid : pyTruthyStr r.id = true
    · rw [if_pos hid] at hkv
      rcases mem_dictInsert_key hkv with h1 | ⟨v0, hv0⟩
      · cases hr : r.id with
        | none => rw [hr] at hid; simp [pyTruthyStr] at hid
        | some s =>
          refine ⟨s, by rw [h1, hr], ?_⟩
          rw [hr] at hid
          simpa [pyTruthyStr] using hid
      · exact hm (kv.1, v0) hv0
    · rw [if_neg hid] at hkv
      exact hm kv hkv

theorem load_launchpad_map_fold_mono (l : List PadEntry)
    (m : List (Option String × String)) (k : Option String)
    (h : ∃ w, (k, w) ∈ m) :
    ∃ w, (k, w) ∈ l.foldl
        (fun mapping p => dictInsert mapping p.id (padDisplay p)) m := by
  induction l generalizing m with
  | nil => exact h
  | cons p rest ih =>
    rw [List.foldl_cons]
    exact ih _ (hasKey_dictInsert_mono _ _ h)

theorem load_launchpad_map_fold_hasKey (l : List PadEntry)
    (m : List (Option String × String)) :
    ∀ p ∈ l, ∃ w, (p.id, w) ∈ l.foldl
        (fun mapping q => dictInsert mapping q.id (padDisplay q)) m := by
  induction l generalizing m with
  | nil => intro p hp; simp at hp
  | cons q rest ih =>
    intro p hp
    rw [List.foldl_cons]
    rcases List.mem_cons.mp hp with h1 | h1
    · subst h1
      exact load_launchpad_map_fold_mono rest _ p.id
        (hasKey_dictInsert_self m p.id (padDisplay p))
    · exact ih _ p h1

theorem filter_key_insertionSort (l : List Launch) (k : String) :
    (l.insertionSort dateAsc).filter (fun x => sortKey x = k)
      = l.filter (fun x => sortKey x = k) := by
  have hall : ∀ x ∈ l.filter (fun x => sortKey x = k),
      ∀ y ∈ l.filter (fun x => sortKey x = k), dateAsc x y := by
    intro x hx y hy
    have hxk : sortKey x = k := by
      simpa using (List.mem_filter.mp hx).2
    have hyk : sortKey y = k := by
      simpa using (List.mem_filter.mp hy).2
    show strLe (sortKey x) (sortKey y) = true
    rw [hxk, hyk]
    exact strLe_refl k
  have hc : (l.filter (fun x => sortKey x = k)).Pairwise dateAsc :=
    List.pairwise_of_forall_mem_list hall
  have h1 : List.Sublist (l.filter (fun x => sortKey x = k))
      (l.insertionSort dateAsc) :=
    List.sublist_insertionSort hc (List.filter_sublist l)
  have h2 : List.Sublist (l.filter (fun x => sortKey x = k))
      ((l.insertionSort dateAsc).filter (fun x => sortKey x = k)) := by
    have h3 := h1.filter (fun x => decide (sortKey x = k))
    rwa [List.filter_eq_self.mpr
          (fun a ha => (List.mem_filter.mp ha).2)] at h3
  have hperm : List.Perm
      ((l.insertionSort dateAsc).filter (fun x => sortKey x = k))
      (l.filter (fun x => sortKey x = k)) :=
    (List.perm_insertionSort dateAsc l).filter _
  exact (h2.eq_of_length hperm.length_eq.symm).symm

theorem orderedInsertE_ok {a : LaunchJ} {l : List LaunchJ} (ha : strKeyed a)
    (hl : ∀ x ∈ l, strKeyed x) :
    ∃ r, orderedInsertE a l = .ok r ∧ ∀ x ∈ r, strKeyed x := by
  induction l with
  | nil =>
    refine ⟨[a], rfl, ?_⟩
    intro x hx
    rw [List.mem_singleton] at hx
    rw [hx]; exact ha
  | cons b t ih =>
    obtain ⟨sa, hsa⟩ := ha
    obtain ⟨sb, hsb⟩ := hl b (List.mem_cons_self _ _)
    have hcmp : pyLeVal (sortKeyJ a) (sortKeyJ b) = .ok (strLe sa sb) := by
      rw [hsa, hsb]; rfl
    cases hle : strLe sa sb with
    | true =>
      refine ⟨a :: b :: t, ?_, ?_⟩
      · rw [orderedInsertE, hcmp, hle]
      · intro x hx
        rcases List.mem_cons.mp hx with h1 | h1
        · rw [h1]; exact ⟨sa, hsa⟩
        · exact hl x h1
    | false =>
      obtain ⟨r, hr, hrk⟩ := ih (fun x hx => hl x (List.mem_cons_of_mem _ hx))
      refine ⟨b :: r, ?_, ?_⟩
      · rw [orderedInsertE, hcmp, hle, hr]
      · intro x hx
        rcases List.mem_cons.mp hx with h1 | h1
        · rw [h1]; exact ⟨sb, hsb⟩
        · exact hrk x h1

theorem insertionSortE_ok {l : List LaunchJ} (hl : ∀ x ∈ l, strKeyed x) :
    ∃ r, insertionSortE l = .ok r ∧ ∀ x ∈ r, strKeyed x := by
  induction l with
  | nil => exact ⟨[], rfl, by intro x hx; simp at hx⟩
  | cons a t ih =>
    obtain ⟨r, hr, hrk⟩ := ih (fun x hx => hl x (List.mem_cons_of_mem _ hx))
    obtain ⟨r2, hr2, hrk2⟩ :=
      orderedInsertE_ok (hl a (List.mem_cons_self _ _)) hrk
    refine ⟨r2, ?_, hrk2⟩
    rw [insertionSortE, hr]
    exact hr2

/-! ### Claim theorems -/

/-- C1 (counterexample): the claim says both reference-data loaders skip
entries lacking an id.  For the launchpad loader this is false: a fetched
collection whose single entry has no id still produces a mapping with one
entry, keyed by the Python `None` id. -/
theorem claim_C1_counterexample :
    load_launchpad_map (some [⟨none, some "Pad X", none, none⟩])
      = [(none, "Pad X")] := by rfl

/-- C1 (amended): the rocket loader contributes a key only for entries
whose id is a present, non-empty string (id-less entries are skipped),
while the launchpad loader indexes every fetched entry — each entry's id,
including an absent one, ends up as a key of the mapping. -/
theorem claim_C1_reference_map_keys :
    (∀ fetched : Option (List RocketEntry),
      ∀ kv ∈ load_rocket_map fetched, ∃ s, kv.1 = some s ∧ s ≠ "") ∧
    (∀ fetched : Option (List PadEntry), ∀ p ∈ fetched.getD [],
      ∃ w, (p.id, w) ∈ load_launchpad_map fetched) := by
  constructor
  · intro fetched kv hkv
    exact load_rocket_map_fold_keys (fetched.getD []) []
      (by intro kv hkv; simp at hkv) kv hkv
  · intro fetched p hp
    exact load_launchpad_map_fold_hasKey (fetched.getD []) [] p hp

/-- C1 (witness for the amended theorem): concrete instances of both
conjuncts. -/
theorem claim_C1_reference_map_keys_witness :
    (∃ s, ((some "5e9d0d95eda69955f709d1eb" : Option String),
        "Falcon 9").1 = some s ∧ s ≠ "") ∧
    ∃ w, ((some "pad1" : Option String), w)
      ∈ load_launchpad_map (some [⟨some "pad1", some "LC-39A", none, none⟩]) := by
  constructor
  · exact claim_C1_reference_map_keys.1
      (some [⟨some "5e9d0d95eda69955f709d1eb", some "Falcon 9"⟩])
      (some "5e9d0d95eda69955f709d1eb", "Falcon 9") (by decide)
  · exact claim_C1_reference_map_keys.2
      (some [⟨some "pad1", some "LC-39A", none, none⟩])
      ⟨some "pad1", some "LC-39A", none, none⟩ (by decide)

/-- C2 (counterexample): the claim says that sorting ascending, reversing,
and sorting the reversal descending returns the ascending-sorted list.  On
two records with distinct timestamps the pipeline returns the descending
order, which differs from the ascending order. -/
theorem claim_C2_counterexample :
    ¬ (List.insertionSort dateDesc
        ((List.insertionSort dateAsc
          [(⟨some "A", some "2024-01-01T00:00:00.000Z", none, none⟩ : Launch),
           ⟨some "B", some "2024-02-01T00:00:00.000Z", none, none⟩]).reverse)
      = List.insertionSort dateAsc
          [(⟨some "A", some "2024-01-01T00:00:00.000Z", none, none⟩ : Launch),
           ⟨some "B", some "2024-02-01T00:00:00.000Z", none, none⟩]) := by
  decide

/-- C2 (amended): sorting any launch list ascending by the timestamp key,
reversing, and stable-sorting the reversal descending by the same key
yields exactly the reversed ascending order (the descending sort leaves the
reversed list unchanged, equal keys included); one further reversal
recovers the original ascending-sorted list. -/
theorem claim_C2_sort_roundtrip (l : List Launch) :
    List.insertionSort dateDesc ((List.insertionSort dateAsc l).reverse)
      = (List.insertionSort dateAsc l).reverse ∧
    (List.insertionSort dateDesc
        ((List.insertionSort dateAsc l).reverse)).reverse
      = List.insertionSort dateAsc l := by
  have hs : List.Sorted dateAsc (List.insertionSort dateAsc l) :=
    List.sorted_insertionSort dateAsc l
  have hrev : List.Sorted dateDesc (List.insertionSort dateAsc l).reverse := by
    rw [List.Sorted, List.pairwise_reverse]
    exact hs
  refine ⟨hrev.insertionSort_eq, ?_⟩
  rw [hrev.insertionSort_eq, List.reverse_reverse]

/-- C2 (witness for the amended theorem): the round trip on a concrete
three-record list containing two records with equal timestamp keys. -/
theorem claim_C2_sort_roundtrip_witness :
    List.insertionSort dateDesc
        ((List.insertionSort dateAsc
          [(⟨some "A", some "2024-01-01T00:00:00.000Z", none, none⟩ : Launch),
           ⟨some "B", some "2024-02-01T00:00:00.000Z", none, none⟩,
           ⟨some "C", some "2024-01-01T00:00:00.000Z", none, none⟩]).reverse)
      = (List.insertionSort dateAsc
          [(⟨some "A", some "2024-01-01T00:00:00.000Z", none, none⟩ : Launch),
           ⟨some "B", some "2024-02-01T00:00:00.000Z", none, none⟩,
           ⟨some "C", some "2024-01-01T00:00:00.000Z", none, none⟩]).reverse :=
  (claim_C2_sort_roundtrip
    [⟨some "A", some "2024-01-01T00:00:00.000Z", none, none⟩,
     ⟨some "B", some "2024-02-01T00:00:00.000Z", none, none⟩,
     ⟨some "C", some "2024-01-01T00:00:00.000Z", none, none⟩]).1

/-- C3: the past-launch loader returns `min N (length fetched)` records,
sorted descending by the timestamp key, and they are exactly the greatest
records of the fetched set: the returned records together with the dropped
ones permute the fetched collection, and every dropped record's key is at
most every returned record's key. -/
theorem claim_C3_past_launches (limit : Nat) (fetched : Option (List Launch)) :
    (get_past_launches limit fetched).length
      = min limit (fetched.getD []).length ∧
    List.Sorted dateDesc (get_past_launches limit fetched) ∧
    ∃ dropped : List Launch,
      List.Perm (get_past_launches limit fetched ++ dropped)
        (fetched.getD []) ∧
      ∀ x ∈ get_past_launches limit fetched, ∀ y ∈ dropped,
        strLe (sortKey y) (sortKey x) = true := by
  have hsorted : List.Sorted dateDesc
      ((fetched.getD []).insertionSort dateDesc) :=
    List.sorted_insertionSort dateDesc (fetched.getD [])
  refine ⟨?_, ?_, ?_⟩
  · rw [get_past_launches, List.length_take, List.length_insertionSort]
  · exact hsorted.sublist (List.take_sublist _ _)
  · refine ⟨((fetched.getD []).insertionSort dateDesc).drop limit, ?_, ?_⟩
    · rw [get_past_launches, List.take_append_drop]
      exact List.perm_insertionSort dateDesc (fetched.getD [])
    · intro x hx y hy
      exact hsorted.rel_of_mem_take_of_mem_drop hx hy

/-- C3 (witness): with limit 1 over a concrete two-record fetch, exactly
one record is returned. -/
theorem claim_C3_past_launches_witness :
    (get_past_launches 1
        (some [(⟨some "a", some "2023-06-01T00:00:00.000Z", none, none⟩ : Launch),
               ⟨some "b", some "2024-06-01T00:00:00.000Z", none, none⟩])).length
      = 1 :=
  (claim_C3_past_launches 1
    (some [⟨some "a", some "2023-06-01T00:00:00.000Z", none, none⟩,
           ⟨some "b", some "2024-06-01T00:00:00.000Z", none, none⟩])).1

/-- C4: the upcoming loader returns a permutation of the full fetched
collection, sorted ascending by the timestamp key; the sort is stable (for
every key value, the records carrying that key appear in their original
relative order); and every record whose timestamp is missing comes before
every record that carries a non-empty timestamp, because the missing
timestamp is replaced by the empty-string fallback key. -/
theorem claim_C4_upcoming_launches (fetched : Option (List Launch)) :
    List.Perm (get_upcoming_launches fetched) (fetched.getD []) ∧
    List.Sorted dateAsc (get_upcoming_launches fetched) ∧
    (∀ k : String,
      (get_upcoming_launches fetched).filter (fun x => sortKey x = k)
        = (fetched.getD []).filter (fun x => sortKey x = k)) ∧
    ∀ i j : Fin (get_upcoming_launches fetched).length,
      ((get_upcoming_launches fetched).get i).date_utc = none →
      (∃ s, ((get_upcoming_launches fetched).get j).date_utc = some s ∧
        s ≠ "") →
      i < j := by
  have hsorted : List.Sorted dateAsc (get_upcoming_launches fetched) :=
    List.sorted_insertionSort dateAsc (fetched.getD [])
  refine ⟨List.perm_insertionSort dateAsc (fetched.getD []), hsorted,
    fun k => filter_key_insertionSort (fetched.getD []) k, ?_⟩
  intro i j hi hj
  by_contra hlt
  push_neg at hlt
  have hrel : dateAsc ((get_upcoming_launches fetched).get j)
      ((get_upcoming_launches fetched).get i) :=
    hsorted.rel_get_of_le hlt
  obtain ⟨s, hs, hsne⟩ := hj
  have hkey_i : sortKey ((get_upcoming_launches fetched).get i) = "" := by
    rw [sortKey, hi]; rfl
  have hkey_j : sortKey ((get_upcoming_launches fetched).get j) = s := by
    rw [sortKey, hs, pyOrStr, if_neg hsne]
  rw [dateAsc, hkey_i, hkey_j] at hrel
  exact hsne (strLe_empty_right hrel)

/-- C4 (witness): on a concrete two-record fetch, the record with the
missing timestamp ends up strictly before the record with a timestamp. -/
theorem claim_C4_upcoming_launches_witness :
    (⟨0, by decide⟩ : Fin (get_upcoming_launches
        (some [⟨some "n", some "2024-01-01T00:00:00.000Z", none, none⟩,
               ⟨some "m", none, none, none⟩])).length)
      < ⟨1, by decide⟩ :=
  (claim_C4_upcoming_launches
      (some [⟨some "n", some "2024-01-01T00:00:00.000Z", none, none⟩,
             ⟨some "m", none, none, none⟩])).2.2.2
    ⟨0, by decide⟩ ⟨1, by decide⟩ (by rfl)
    ⟨"2024-01-01T00:00:00.000Z", by rfl, by decide⟩

/-- C5 (counterexample): the claim allows only the fallback strings
"Unknown rocket", "Unknown pad" and "Unknown", but the detail view resolves
an unmapped launchpad reference to "Unknown launchpad", which is none of
the three. -/
theorem claim_C5_counterexample :
    detailPadName [] ⟨some "m", none, none, some "pad1"⟩
        = "Unknown launchpad" ∧
    ("Unknown launchpad" ≠ "Unknown rocket" ∧
     "Unknown launchpad" ≠ "Unknown pad" ∧
     "Unknown launchpad" ≠ "Unknown") := by
  refine ⟨rfl, by decide, by decide, by decide⟩

/-- C5 (amended): for every mapping and launch record, each of the four
reference resolutions is total and yields either the display name the
mapping stores for the looked-up id or the fixed fallback of its call
site — "Unknown" in the table view, "Unknown rocket" and
"Unknown launchpad" in the detail view. -/
theorem claim_C5_lookup_fallback (m : List (Option String × String))
    (launch : Launch) :
    (tableRocketName m launch = "Unknown" ∨
      ∃ v, (launch.rocket, v) ∈ m ∧ tableRocketName m launch = v) ∧
    (tablePadName m launch = "Unknown" ∨
      ∃ v, (launch.launchpad, v) ∈ m ∧ tablePadName m launch = v) ∧
    (detailRocketName m launch = "Unknown rocket" ∨
      ∃ v, (launch.rocket, v) ∈ m ∧ detailRocketName m launch = v) ∧
    (detailPadName m launch = "Unknown launchpad" ∨
      ∃ v, (launch.launchpad, v) ∈ m ∧ detailPadName m launch = v) :=
  ⟨dictGet_eq_default_or_mem m launch.rocket "Unknown",
   dictGet_eq_default_or_mem m launch.launchpad "Unknown",
   dictGet_eq_default_or_mem m launch.rocket "Unknown rocket",
   dictGet_eq_default_or_mem m launch.launchpad "Unknown launchpad"⟩

/-- C5 (witness for the amended theorem): concrete instance of the table
rocket lookup on a one-entry mapping containing the looked-up id. -/
theorem claim_C5_lookup_fallback_witness :
    tableRocketName [(some "r1", "Falcon 9")]
        ⟨some "m", none, some "r1", none⟩ = "Unknown" ∨
    ∃ v, ((⟨some "m", none, some "r1", none⟩ : Launch).rocket, v)
        ∈ [((some "r1" : Option String), "Falcon 9")] ∧
      tableRocketName [(some "r1", "Falcon 9")]
        ⟨some "m", none, some "r1", none⟩ = v :=
  (claim_C5_lookup_fallback [(some "r1", "Falcon 9")]
    ⟨some "m", none, some "r1", none⟩).1

/-- C6: a failed fetch of the rockets endpoint (the `none` sentinel
returned by `fetch_json`, distinct from the empty collection `some []`)
makes the rocket loader return the empty mapping rather than fail, and the
table rendering then resolves every rocket reference to "Unknown". -/
theorem claim_C6_rocket_fetch_failure :
    load_rocket_map none = [] ∧
    (none : Option (List RocketEntry)) ≠ some [] ∧
    ∀ launch : Launch, tableRocketName (load_rocket_map none) launch
      = "Unknown" := by
  refine ⟨rfl, by simp, fun launch => rfl⟩

/-- C6 (witness): a concrete launch referencing a rocket id resolves to
"Unknown" under the mapping built from a failed fetch. -/
theorem claim_C6_rocket_fetch_failure_witness :
    tableRocketName (load_rocket_map none)
        ⟨some "m", none, some "5e9d0d95eda69955f709d1eb", none⟩
      = "Unknown" :=
  claim_C6_rocket_fetch_failure.2.2
    ⟨some "m", none, some "5e9d0d95eda69955f709d1eb", none⟩

/-- C7: the search core never filters on an empty (or whitespace-only)
query — it declines to search, which in particular is not an empty result
set; a non-empty stripped query selects exactly the launches whose
(lower-cased, absent-read-as-empty) name contains the lower-cased query,
and a launch with an absent name never appears among the matches. -/
theorem claim_C7_search (launches : List Launch) (rawQuery : String) :
    (pyStrip rawQuery = "" →
      search_matches launches rawQuery = none ∧
      search_matches launches rawQuery ≠ some []) ∧
    (pyStrip rawQuery ≠ "" →
      search_matches launches rawQuery
        = some (launches.filter (fun l =>
            containsSub (pyLower (pyStrip rawQuery)).data
              (pyLower (pyOrStr l.name "")).data)) ∧
      (∀ l : Launch,
        l ∈ launches.filter (fun l =>
            containsSub (pyLower (pyStrip rawQuery)).data
              (pyLower (pyOrStr l.name "")).data) ↔
          l ∈ launches ∧
          containsSub (pyLower (pyStrip rawQuery)).data
            (pyLower (pyOrStr l.name "")).data = true) ∧
      ∀ l : Launch, l.name = none →
        l ∉ launches.filter (fun l =>
            containsSub (pyLower (pyStrip rawQuery)).data
              (pyLower (pyOrStr l.name "")).data)) := by
  constructor
  · intro hq
    rw [search_matches]
    simp only [hq, if_pos rfl]
    exact ⟨rfl, by simp⟩
  · intro hq
    refine ⟨?_, ?_, ?_⟩
    · rw [search_matches]
      simp only [if_neg hq]
    · intro l
      rw [List.mem_filter]
    · intro l hname hmem
      have hP := (List.mem_filter.mp hmem).2
      rw [hname] at hP
      have hempty : (pyLower (pyOrStr none "")).data = [] := rfl
      rw [hempty, containsSub] at hP
      have hqd : (pyLower (pyStrip rawQuery)).data ≠ [] := by
        intro hnil
        apply data_ne_nil_of_ne_empty hq
        have : (pyStrip rawQuery).data.map Char.toLower = [] := hnil
        exact List.map_eq_nil_iff.mp this
      rw [List.isEmpty_iff] at hP
      exact hqd hP

/-- C7 (witness): a whitespace-only query is declined; a padded
mixed-case query matches the single launch whose name contains it and
skips the launch with an absent name. -/
theorem claim_C7_search_witness :
    search_matches [⟨some "Starlink 5", none, none, none⟩] "   " = none ∧
    search_matches [⟨some "Starlink 5", none, none, none⟩,
        ⟨none, none, none, none⟩] " sTAR "
      = some [⟨some "Starlink 5", none, none, none⟩] := by
  constructor
  · exact ((claim_C7_search [⟨some "Starlink 5", none, none, none⟩]
      "   ").1 (by rfl)).1
  · have h := ((claim_C7_search [⟨some "Starlink 5", none, none, none⟩,
        ⟨none, none, none, none⟩] " sTAR ").2 (by decide)).1
    rw [h]
    rfl

theorem foldr_expand_append (f : Char → List Char) (l1 l2 : List Char) :
    (l1 ++ l2).foldr (fun c acc => f c ++ acc) []
      = l1.foldr (fun c acc => f c ++ acc) []
        ++ l2.foldr (fun c acc => f c ++ acc) [] := by
  induction l1 with
  | nil => rfl
  | cons c rest ih =>
    simp only [List.cons_append, List.foldr_cons, ih, List.append_assoc]

theorem replaceZ_append (s t : String) :
    replaceZ (s ++ t) = replaceZ s ++ replaceZ t := by
  cases s with
  | mk ls =>
    cases t with
    | mk lt =>
      show String.mk ((ls ++ lt).foldr _ []) = String.mk (ls.foldr _ [] ++ lt.foldr _ [])
      rw [foldr_expand_append]

/-- C8: replacing the literal "Z" suffix makes a `Z`-suffixed input and its
"+00:00" twin reach the ISO-8601 parser as the same string, so whenever
that common string parses they format identically; an absent or empty input
produces the placeholder; and a string the parser rejects is returned
unchanged — the function is total.  `pyParse` abstracts the
`datetime.fromisoformat`-then-`strftime` pipeline, which either formats or
raises. -/
theorem claim_C8_format_datetime (pyParse : String → Option String) :
    (∀ s out : String, pyParse (replaceZ (s ++ "Z")) = some out →
      format_datetime pyParse (some (s ++ "Z"))
        = format_datetime pyParse (some (s ++ "+00:00"))) ∧
    format_datetime pyParse none = "—" ∧
    format_datetime pyParse (some "") = "—" ∧
    ∀ s : String, s ≠ "" → pyParse (replaceZ s) = none →
      format_datetime pyParse (some s) = s := by
  refine ⟨?_, rfl, rfl, ?_⟩
  · intro s out h
    have hrw : replaceZ (s ++ "Z") = replaceZ s ++ "+00:00" := by
      rw [replaceZ_append]; rfl
    have hrw2 : replaceZ (s ++ "+00:00") = replaceZ s ++ "+00:00" := by
      rw [replaceZ_append]; rfl
    have hne1 : s ++ "Z" ≠ "" := by
      intro hE
      have hd := congrArg String.data hE
      rw [String.data_append] at hd
      simp at hd
    have hne2 : s ++ "+00:00" ≠ "" := by
      intro hE
      have hd := congrArg String.data hE
      rw [String.data_append] at hd
      simp at hd
    rw [hrw] at h
    rw [format_datetime, format_datetime, if_neg hne1, if_neg hne2,
      hrw, hrw2, h]
  · intro s hs hp
    rw [format_datetime, if_neg hs, hp]

/-- The concrete parser-pipeline instance used by the C8 witness: it
formats exactly the timestamp of the spec's example and rejects everything
else. -/
def pyParseMar2024 : String → Option String := fun u =>
  if u = "2024-03-01T12:00:00+00:00" then some "2024-03-01 12:00 UTC"
  else none

/-- C8 (witness): the spec's example timestamp with a "Z" suffix formats
identically to its "+00:00" twin; an absent input gives the placeholder;
an unparsable string passes through unchanged. -/
theorem claim_C8_format_datetime_witness :
    format_datetime pyParseMar2024 (some "2024-03-01T12:00:00Z")
      = format_datetime pyParseMar2024 (some "2024-03-01T12:00:00+00:00") ∧
    format_datetime pyParseMar2024 none = "—" ∧
    format_datetime pyParseMar2024 (some "not a timestamp")
      = "not a timestamp" := by
  refine ⟨?_, (claim_C8_format_datetime pyParseMar2024).2.1, ?_⟩
  · exact (claim_C8_format_datetime pyParseMar2024).1
      "2024-03-01T12:00:00" "2024-03-01 12:00 UTC" (by rfl)
  · exact (claim_C8_format_datetime pyParseMar2024).2.2.2
      "not a timestamp" (by decide) (by rfl)

/-- C9: the launchpad display string composes the pad name with a
parenthesized suffix comma-joining only the non-empty locality/region
parts: no suffix at all when both are empty (no dangling "()"), a single
part alone in the parentheses when only one is non-empty (never
"(, Region)"), and "locality, region" when both are present. -/
theorem claim_C9_pad_display (p : PadEntry) :
    (pyOrStr p.locality "" = "" → pyOrStr p.region "" = "" →
      padDisplay p = pyOrStr p.name "Unknown pad") ∧
    (pyOrStr p.locality "" = "" → pyOrStr p.region "" ≠ "" →
      padDisplay p = pyOrStr p.name "Unknown pad"
        ++ " (" ++ pyOrStr p.region "" ++ ")") ∧
    (pyOrStr p.locality "" ≠ "" → pyOrStr p.region "" = "" →
      padDisplay p = pyOrStr p.name "Unknown pad"
        ++ " (" ++ pyOrStr p.locality "" ++ ")") ∧
    (pyOrStr p.locality "" ≠ "" → pyOrStr p.region "" ≠ "" →
      padDisplay p = pyOrStr p.name "Unknown pad"
        ++ " (" ++ pyOrStr p.locality "" ++ ", "
        ++ pyOrStr p.region "" ++ ")") := by
  have hdisp : padDisplay p =
      (if joinComma (List.filter (fun part => part ≠ "")
          [pyOrStr p.locality "", pyOrStr p.region ""]) = ""
       then pyOrStr p.name "Unknown pad"
       else pyOrStr p.name "Unknown pad" ++ " ("
         ++ joinComma (List.filter (fun part => part ≠ "")
              [pyOrStr p.locality "", pyOrStr p.region ""]) ++ ")") := rfl
  refine ⟨?_, ?_, ?_, ?_⟩ <;> intro hl hr <;> rw [hdisp]
  · rw [hl, hr]
    rfl
  · rw [hl]
    have hfil : List.filter (fun part => part ≠ "")
        ["", pyOrStr p.region ""] = [pyOrStr p.region ""] := by
      simp [List.filter, hr]
    rw [hfil]
    rw [joinComma]
    rw [if_neg hr]
  · rw [hr]
    have hfil : List.filter (fun part => part ≠ "")
        [pyOrStr p.locality "", ""] = [pyOrStr p.locality ""] := by
      simp [List.filter, hl]
    rw [hfil]
    rw [joinComma]
    rw [if_neg hl]
  · have hfil : List.filter (fun part => part ≠ "")
        [pyOrStr p.locality "", pyOrStr p.region ""]
        = [pyOrStr p.locality "", pyOrStr p.region ""] := by
      simp [List.filter, hl, hr]
    rw [hfil]
    have hjoin : joinComma [pyOrStr p.locality "", pyOrStr p.region ""]
        = pyOrStr p.locality "" ++ ", " ++ pyOrStr p.region "" := rfl
    rw [hjoin]
    rw [if_neg (append_ne_empty_left _ (append_ne_empty_left _ hl))]
    simp [String.append_assoc]

/-- C9 (witness): the three concrete shapes — no locality and no region,
region only, and both — on explicit pad entries. -/
theorem claim_C9_pad_display_witness :
    padDisplay ⟨some "p1", some "LC-39A", none, none⟩ = "LC-39A" ∧
    padDisplay ⟨some "p2", some "LC-39A", none, some "Florida"⟩
      = "LC-39A (Florida)" ∧
    padDisplay ⟨some "p3", some "LC-39A", some "Cape Canaveral",
        some "Florida"⟩
      = "LC-39A (Cape Canaveral, Florida)" := by
  refine ⟨?_, ?_, ?_⟩
  · exact (claim_C9_pad_display ⟨some "p1", some "LC-39A", none, none⟩).1
      (by rfl) (by rfl)
  · exact ((claim_C9_pad_display
      ⟨some "p2", some "LC-39A", none, some "Florida"⟩).2.1
      (by rfl) (by decide)).trans (by rfl)
  · exact ((claim_C9_pad_display
      ⟨some "p3", some "LC-39A", some "Cape Canaveral",
        some "Florida"⟩).2.2.2
      (by decide) (by decide)).trans (by rfl)

/-- C10: the launch-list loaders are total when every fetched record's
`date_utc` is absent, `null`, or a string — the `or ""` fallback then
normalises every sort key to a string and no key comparison fails — but
the fallback does not guard truthy non-string values: on a concrete fetch
holding a record whose `date_utc` is the number 5 next to a string-dated
record, the key comparison raises a `TypeError` and both loaders fail. -/
theorem claim_C10_sort_totality (fetched : Option (List LaunchJ))
    (hpre : ∀ x ∈ fetched.getD [],
      x.date_utc = none ∨ x.date_utc = some PyVal.null ∨
        ∃ s, x.date_utc = some (PyVal.str s)) :
    ((∃ r, get_upcoming_launchesJ fetched = .ok r) ∧
     ∀ limit : Nat, ∃ r, get_past_launchesJ limit fetched = .ok r) ∧
    (get_upcoming_launchesJ
        (some [⟨some (PyVal.int 5)⟩,
               ⟨some (PyVal.str "2024-01-01T00:00:00.000Z")⟩])
      = .error "TypeError" ∧
     get_past_launchesJ 20
        (some [⟨some (PyVal.int 5)⟩,
               ⟨some (PyVal.str "2024-01-01T00:00:00.000Z")⟩])
      = .error "TypeError" ∧
     pyLeVal (PyVal.int 5) (PyVal.str "2024-01-01T00:00:00.000Z")
      = .error "TypeError") := by
  have hkeys : ∀ x ∈ fetched.getD [], strKeyed x := by
    intro x hx
    rcases hpre x hx with h | h | ⟨s, h⟩
    · exact ⟨"", by rw [sortKeyJ, h]⟩
    · exact ⟨"", by rw [sortKeyJ, h]; rfl⟩
    · by_cases hs : s = ""
      · exact ⟨"", by rw [sortKeyJ, h, hs]; rfl⟩
      · refine ⟨s, ?_⟩
        rw [sortKeyJ, h]
        simp [pyTruthy, hs]
  obtain ⟨r, hr, _⟩ := insertionSortE_ok hkeys
  refine ⟨⟨⟨r, hr⟩, ?_⟩, by rfl, by rfl, by rfl⟩
  intro limit
  refine ⟨r.take limit, ?_⟩
  rw [get_past_launchesJ, hr]

/-- C10 (witness): a concrete well-typed fetch (one string date, one
absent date) on which both loaders succeed, and the concrete ill-typed
fetch on which the upcoming loader raises. -/
theorem claim_C10_sort_totality_witness :
    (get_upcoming_launchesJ
        (some [⟨some (PyVal.str "2024-01-05T00:00:00.000Z")⟩,
               ⟨none⟩])).isOk = true ∧
    (get_past_launchesJ 20
        (some [⟨some (PyVal.str "2024-01-05T00:00:00.000Z")⟩,
               ⟨none⟩])).isOk = true ∧
    get_upcoming_launchesJ
        (some [⟨some (PyVal.int 5)⟩,
               ⟨some (PyVal.str "2024-01-01T00:00:00.000Z")⟩])
      = .error "TypeError" := by
  have h := claim_C10_sort_totality
    (some [⟨some (PyVal.str "2024-01-05T00:00:00.000Z")⟩, ⟨none⟩])
    (by
      intro x hx
      rcases List.mem_cons.mp hx with h1 | h1
      · right; right
        exact ⟨"2024-01-05T00:00:00.000Z", by rw [h1]⟩
      · left
        rw [List.mem_singleton.mp h1])
  refine ⟨?_, ?_, h.2.1⟩
  · obtain ⟨r, hr⟩ := h.1.1
    rw [hr]; rfl
  · obtain ⟨r, hr⟩ := h.1.2 20
    rw [hr]; rfl

end SpaceX
